import Mathlib

/-!
Verification of the worktree state engine of the ai-dev-workspace extension.

The definitions below are a shallow embedding of the TypeScript sources:
`src/services/GitService.ts` (the repository gateway and the porcelain
parser), `src/services/WorktreeManager.ts` (the lifecycle orchestrator),
`src/services/TerminalTracker.ts` (the session registry) and the tree
provider.  Pure functions become Lean functions; the external git tool,
the filesystem and the confirmation prompt become explicit parameters
(an `Except` value for a call that can throw, a `Bool` for a stat probe,
an `Option String` for a prompt answer); JavaScript truthiness on
optional numeric fields is spelled out on `Option Nat`.
-/

/-! ## Data model (`src/types/index.ts`) -/

/-- `WorktreeInfo` from `src/types/index.ts`.  `branch` and `commit` are
optional because `parseWorktreeList` casts a partially filled object, so
those fields can be `undefined`; `changes` is the optional enrichment
field. -/
structure WorktreeInfo where
  path : String
  branch : Option String
  commit : Option String
  isMain : Bool
  isLocked : Bool
  changes : Option Nat := none
  deriving Repr, DecidableEq

/-- `GitOperationResult` from `src/types/index.ts`. -/
structure GitOperationResult where
  success : Bool
  error : Option String := none
  output : Option String := none
  deriving Repr, DecidableEq

/-! ## String helpers

`leadsList p l` models JavaScript `String.prototype.startsWith` on the
underlying character lists. -/

/-- Boolean test that the first list is an initial segment of the second. -/
def leadsList : List Char → List Char → Bool
  | [], _ => true
  | _ :: _, [] => false
  | a :: as, b :: bs => a = b && leadsList as bs

/-- Model of JavaScript `l.startsWith p`. -/
def strStartsWith (l p : String) : Bool :=
  leadsList p.data l.data

/-! ## Porcelain worktree-list parser (`GitService.parseWorktreeList`) -/

/-- Model of JavaScript `split(sep)` for a one-character separator, on
the character list: one segment per separator occurrence, a single empty
segment for the empty string. -/
def splitCh (sep : Char) : List Char → List (List Char)
  | [] => [[]]
  | c :: cs =>
    if c = sep then [] :: splitCh sep cs
    else
      match splitCh sep cs with
      | [] => [[c]]
      | r :: rs => (c :: r) :: rs

/-- Model of JavaScript `trim()`: drop whitespace from both ends. -/
def trimChars (cs : List Char) : List Char :=
  ((cs.dropWhile Char.isWhitespace).reverse.dropWhile Char.isWhitespace).reverse

/-- The line filter of `parseWorktreeList`:
`output.split('\n').filter(line => line.trim())` — a line is kept when
its trimmed form is truthy, i.e. non-empty. -/
def parseLines (output : String) : List String :=
  ((splitCh '\n' output.data).map (fun cs => String.mk cs)).filter
    (fun l => trimChars l.data ≠ [])

/-- Test for a `worktree <path>` block-opening line. -/
def isWorktreeLine (l : String) : Bool :=
  strStartsWith l "worktree "

/-- The mutable accumulator `currentWorktree` once its `path` field has
been set by a `worktree` line.  Before the first `worktree` line the
accumulator has no `path` and can never be flushed, which the parser
models with `none`. -/
structure CurRec where
  path : String
  commit : Option String
  branch : Option String
  isMain : Bool
  isLocked : Bool
  deriving Repr, DecidableEq

/-- The fresh accumulator created by a `worktree` line. -/
def initRec (p : String) : CurRec :=
  ⟨p, none, none, false, false⟩

/-- One step of the attribute-line chain of `parseWorktreeList`
(the `else if` ladder for `HEAD`, `branch`, `bare`, `locked`). -/
def updLine (cur : Option CurRec) (l : String) : Option CurRec :=
  match cur with
  | none => none
  | some c =>
    if strStartsWith l "HEAD " then some { c with commit := some (l.drop 5) }
    else if strStartsWith l "branch " then some { c with branch := some (l.drop 7) }
    else if l = "bare" then some { c with isMain := true }
    else if strStartsWith l "locked" then some { c with isLocked := true }
    else some c

/-- Convert a flushed accumulator into a `WorktreeInfo`
(the `currentWorktree as WorktreeInfo` cast). -/
def toInfo (c : CurRec) : WorktreeInfo :=
  ⟨c.path, c.branch, c.commit, c.isMain, c.isLocked, none⟩

/-- The flush step `if (currentWorktree.path) worktrees.push(...)`:
the accumulator is emitted only when its `path` is truthy, i.e. a
non-empty string. -/
def flushRec (cur : Option CurRec) : List WorktreeInfo :=
  match cur with
  | none => []
  | some c => if c.path ≠ "" then [toInfo c] else []

/-- The line loop of `parseWorktreeList`. -/
def parseGo : List String → Option CurRec → List WorktreeInfo
  | [], cur => flushRec cur
  | l :: ls, cur =>
    if isWorktreeLine l then
      flushRec cur ++ parseGo ls (some (initRec (l.drop 9)))
    else
      parseGo ls (updLine cur l)

/-- `GitService.parseWorktreeList` (GitService.ts lines 173 to 205). -/
def parseWorktreeList (output : String) : List WorktreeInfo :=
  parseGo (parseLines output) none

/-! ## Spec-side block decomposition for the parser

The specification describes the porcelain input as a sequence of blocks,
each beginning with a `worktree <path>` line and running until the next
`worktree` line or the end of input, with `bare` and `locked...` lines
setting the two flags of their own block only. -/

/-- Length bound used for the termination of `specBlocks`. -/
theorem lengthDropWhileLe (p : α → Bool) : ∀ l : List α, (l.dropWhile p).length ≤ l.length
  | [] => Nat.le_refl _
  | a :: l => by
    rw [List.dropWhile_cons]
    split
    · exact Nat.le_succ_of_le (lengthDropWhileLe p l)
    · exact Nat.le_refl _

/-- Spec-side definition: decompose the (non-blank) input lines into
blocks, one per `worktree` line, each block carrying the text after the
9-character `worktree ` marker together with the attribute lines that
follow it up to the next `worktree` line or the end of input. -/
def specBlocks : List String → List (String × List String)
  | [] => []
  | l :: ls =>
    if isWorktreeLine l then
      (l.drop 9, ls.takeWhile (fun x => !(isWorktreeLine x)))
        :: specBlocks (ls.dropWhile (fun x => !(isWorktreeLine x)))
    else
      specBlocks ls
termination_by ls => ls.length
decreasing_by
  · exact Nat.lt_succ_of_le (lengthDropWhileLe _ ls)
  · exact Nat.lt_succ_of_le (Nat.le_refl _)

/-- Spec-side definition: the record a block contributes, projected to
the fields the block state machine is about.  A block whose path text is
empty contributes nothing (the flush guard), otherwise it contributes
its path, `isMain` true exactly when the block contains the line `bare`,
and `isLocked` true exactly when the block contains a line starting with
`locked`. -/
def specBlockRecord (b : String × List String) : Option (String × Bool × Bool) :=
  if b.1 ≠ "" then
    some (b.1, b.2.any (fun l => l == "bare"), b.2.any (fun l => strStartsWith l "locked"))
  else none

/-- Projection of a parsed record to the fields the block state machine
is about. -/
def projFlags (w : WorktreeInfo) : String × Bool × Bool :=
  (w.path, w.isMain, w.isLocked)

/-- Folding the attribute chain over the accumulator. -/
def applyAttrs (cur : Option CurRec) (ls : List String) : Option CurRec :=
  ls.foldl updLine cur

theorem leadsList_head (a : Char) (as ls : List Char) (h : leadsList (a :: as) ls = true) :
    ls.head? = some a := by
  cases ls with
  | nil => exact absurd h (by simp [leadsList])
  | cons b bs =>
    have hab : a = b := by
      by_contra hne
      simp [leadsList, hne] at h
    simp [hab]

theorem strStartsWith_head (l p : String) (c : Char) (hc : p.data.head? = some c)
    (h : strStartsWith l p = true) : l.data.head? = some c := by
  unfold strStartsWith at h
  cases hp : p.data with
  | nil => rw [hp] at hc; simp at hc
  | cons a as =>
    rw [hp] at hc h
    simp only [List.head?_cons, Option.some.injEq] at hc
    subst hc
    exact leadsList_head _ _ _ h

theorem updLine_some (c : CurRec) (l : String) :
    ∃ c2, updLine (some c) l = some c2 ∧ c2.path = c.path ∧
      c2.isMain = (c.isMain || (l == "bare")) ∧
      c2.isLocked = (c.isLocked || strStartsWith l "locked") := by
  by_cases h1 : strStartsWith l "HEAD "
  · have hb : (l == "bare") = false := beq_eq_false_iff_ne.mpr (by
      intro he; subst he; exact absurd h1 (by decide))
    have hl : strStartsWith l "locked" = false := by
      by_contra hc
      rw [Bool.not_eq_false] at hc
      have e1 := strStartsWith_head l "HEAD " 'H' (by decide) h1
      have e2 := strStartsWith_head l "locked" 'l' (by decide) hc
      rw [e1] at e2
      exact absurd e2 (by decide)
    exact ⟨{ c with commit := some (l.drop 5) },
      by simp [updLine, h1], rfl, by simp [hb], by simp [hl]⟩
  · by_cases h2 : strStartsWith l "branch "
    · have hb : (l == "bare") = false := beq_eq_false_iff_ne.mpr (by
        intro he; subst he; exact absurd h2 (by decide))
      have hl : strStartsWith l "locked" = false := by
        by_contra hc
        rw [Bool.not_eq_false] at hc
        have e1 := strStartsWith_head l "branch " 'b' (by decide) h2
        have e2 := strStartsWith_head l "locked" 'l' (by decide) hc
        rw [e1] at e2
        exact absurd e2 (by decide)
      exact ⟨{ c with branch := some (l.drop 7) },
        by simp [updLine, h1, h2], rfl, by simp [hb], by simp [hl]⟩
    · by_cases h3 : l = "bare"
      · subst h3
        exact ⟨{ c with isMain := true },
          by simp [updLine, h1, h2], rfl, by simp,
          by simp [show strStartsWith "bare" "locked" = false from by decide]⟩
      · have hb : (l == "bare") = false := beq_eq_false_iff_ne.mpr h3
        by_cases h4 : strStartsWith l "locked"
        · exact ⟨{ c with isLocked := true },
            by simp [updLine, h1, h2, h3, h4], rfl, by simp [hb], by simp [h4]⟩
        · have hl : strStartsWith l "locked" = false := by simpa using h4
          exact ⟨c, by simp [updLine, h1, h2, h3, h4], rfl, by simp [hb], by simp [hl]⟩

theorem applyAttrs_some (as : List String) (c : CurRec) :
    ∃ c2, applyAttrs (some c) as = some c2 ∧ c2.path = c.path ∧
      c2.isMain = (c.isMain || as.any (fun l => l == "bare")) ∧
      c2.isLocked = (c.isLocked || as.any (fun l => strStartsWith l "locked")) := by
  induction as generalizing c with
  | nil => exact ⟨c, rfl, rfl, by simp, by simp⟩
  | cons a as ih =>
    obtain ⟨c1, e1, p1, m1, l1⟩ := updLine_some c a
    obtain ⟨c2, e2, p2, m2, l2⟩ := ih c1
    refine ⟨c2, ?_, p2.trans p1, ?_, ?_⟩
    · show applyAttrs (some c) (a :: as) = some c2
      unfold applyAttrs at e2 ⊢
      simpa only [List.foldl_cons, e1] using e2
    · rw [m2, m1]
      simp [Bool.or_assoc]
    · rw [l2, l1]
      simp [Bool.or_assoc]

theorem applyAttrs_none (ls : List String) : applyAttrs none ls = none := by
  induction ls with
  | nil => rfl
  | cons l ls ih =>
    unfold applyAttrs at ih ⊢
    simpa only [List.foldl_cons, updLine] using ih

theorem flush_initRec (p : String) (attrs : List String) :
    (flushRec (applyAttrs (some (initRec p)) attrs)).map projFlags
      = (specBlockRecord (p, attrs)).toList := by
  obtain ⟨c2, e, hp, hm, hl⟩ := applyAttrs_some attrs (initRec p)
  rw [e]
  simp only [initRec] at hp hm hl
  by_cases h : p = ""
  · subst h
    simp [flushRec, specBlockRecord, hp]
  · simp [flushRec, specBlockRecord, hp, h, projFlags, toInfo, hm, hl]

theorem specBlocks_nil : specBlocks [] = [] := by
  rw [specBlocks]

theorem specBlocks_cons_wt (l : String) (ls : List String) (h : isWorktreeLine l = true) :
    specBlocks (l :: ls)
      = (l.drop 9, ls.takeWhile (fun x => !(isWorktreeLine x)))
          :: specBlocks (ls.dropWhile (fun x => !(isWorktreeLine x))) := by
  rw [specBlocks, if_pos h]

theorem specBlocks_cons_attr (l : String) (ls : List String) (h : isWorktreeLine l = false) :
    specBlocks (l :: ls) = specBlocks ls := by
  rw [specBlocks, if_neg (by simp [h])]

theorem specBlocks_dropWhile (ls : List String) :
    specBlocks (ls.dropWhile (fun x => !(isWorktreeLine x))) = specBlocks ls := by
  induction ls with
  | nil => rfl
  | cons l ls ih =>
    by_cases h : isWorktreeLine l
    · rw [List.dropWhile_cons_of_neg (by simp [h])]
    · rw [List.dropWhile_cons_of_pos (by simp [h]), ih, specBlocks_cons_attr l ls (by simpa using h)]

theorem parseGo_spec (ls : List String) (cur : Option CurRec) :
    (parseGo ls cur).map projFlags
      = (flushRec (applyAttrs cur (ls.takeWhile (fun x => !(isWorktreeLine x))))).map projFlags
        ++ (specBlocks (ls.dropWhile (fun x => !(isWorktreeLine x)))).filterMap specBlockRecord := by
  induction ls generalizing cur with
  | nil =>
    simp only [parseGo, List.takeWhile_nil, List.dropWhile_nil, specBlocks_nil,
      List.filterMap_nil, List.append_nil]
    rfl
  | cons l ls ih =>
    by_cases hw : isWorktreeLine l
    · rw [show parseGo (l :: ls) cur
          = flushRec cur ++ parseGo ls (some (initRec (l.drop 9))) from by
            rw [parseGo, if_pos hw],
        List.takeWhile_cons_of_neg (by simp [hw]),
        List.dropWhile_cons_of_neg (by simp [hw]),
        specBlocks_cons_wt l ls hw, List.map_append, ih]
      show _ = (flushRec (applyAttrs cur [])).map projFlags ++ _
      rw [show applyAttrs cur [] = cur from rfl]
      rw [List.filterMap_cons]
      cases hrec : specBlockRecord (l.drop 9, ls.takeWhile (fun x => !(isWorktreeLine x))) with
      | none =>
        have := flush_initRec (l.drop 9) (ls.takeWhile (fun x => !(isWorktreeLine x)))
        rw [hrec] at this
        simp only [Option.toList_none] at this
        rw [this]
        simp
      | some r =>
        have := flush_initRec (l.drop 9) (ls.takeWhile (fun x => !(isWorktreeLine x)))
        rw [hrec] at this
        simp only [Option.toList_some] at this
        rw [this]
        simp
    · rw [show parseGo (l :: ls) cur = parseGo ls (updLine cur l) from by
          rw [parseGo, if_neg (by simp [hw])],
        List.takeWhile_cons_of_pos (by simp [hw]),
        List.dropWhile_cons_of_pos (by simp [hw]), ih]
      rfl

/-- C3 (amended): for every input text, `parseWorktreeList` implements the
block state machine: one output record per line starting with
`worktree ` whose payload after the marker is non-empty, with `isMain`
true exactly when the record's own block contains the line `bare`,
`isLocked` true exactly when the block contains a line starting with
`locked` (trailing reason text ignored), flags never leaking between
blocks, unrecognized lines ignored, and parse of the empty string
yielding the empty sequence rather than an error. -/
theorem parse_matches_specBlocks :
    (∀ output : String,
      (parseWorktreeList output).map projFlags
        = (specBlocks (parseLines output)).filterMap specBlockRecord)
    ∧ parseWorktreeList "" = [] := by
  constructor
  · intro output
    unfold parseWorktreeList
    rw [parseGo_spec (parseLines output) none, applyAttrs_none, specBlocks_dropWhile]
    rfl
  · rfl

/-- C3 counterexample: the input consisting of the single line
`worktree ` (the marker with an empty payload) starts with `worktree `
yet produces no record, so `parseWorktreeList` does not emit one output
record per line starting with `worktree `. -/
theorem parse_empty_path_dropped :
    (parseWorktreeList "worktree ").length = 0
    ∧ ((parseLines "worktree ").countP (fun l => isWorktreeLine l)) = 1 := by
  constructor
  · rfl
  · rfl

/-! ## Version comparison (`GitService.compareVersions`,
`GitService.validateGitVersion`) -/

/-- Accumulator pass turning a run of decimal digits into a number. -/
def digitsToNat (acc : Nat) : List Char → Nat
  | [] => acc
  | c :: cs => digitsToNat (acc * 10 + (c.toNat - 48)) cs

/-- Model of JavaScript `Number(s)` on the strings produced by splitting
a version string on dots: the empty string converts to 0, a run of
digits to the corresponding number, anything else to NaN, modelled as
`none`. -/
def jsNum (s : String) : Option Int :=
  if s.data = [] then some 0
  else if s.data.all Char.isDigit then some (Int.ofNat (digitsToNat 0 s.data))
  else none

/-- JavaScript `>`: false whenever either side is NaN or undefined. -/
def jsGt : Option Int → Option Int → Bool
  | some x, some y => x > y
  | _, _ => false

/-- JavaScript `<`: false whenever either side is NaN or undefined. -/
def jsLt : Option Int → Option Int → Bool
  | some x, some y => x < y
  | _, _ => false

/-- Array indexing `parts[i]`: out of range yields undefined (`none`). -/
def partAt (ps : List (Option Int)) (i : Nat) : Option Int :=
  (ps[i]?).join

/-- The `for (let i = 0; i < 3; i++)` loop body of `compareVersions`,
over the list of visited indices. -/
def compareLoop (p1 p2 : List (Option Int)) : List Nat → Int
  | [] => 0
  | i :: rest =>
    if jsGt (partAt p1 i) (partAt p2 i) then 1
    else if jsLt (partAt p1 i) (partAt p2 i) then -1
    else compareLoop p1 p2 rest

/-- `GitService.compareVersions` (GitService.ts lines 210 to 220). -/
def compareVersions (version1 version2 : String) : Int :=
  compareLoop
    ((splitCh '.' version1.data).map (fun cs => jsNum (String.mk cs)))
    ((splitCh '.' version2.data).map (fun cs => jsNum (String.mk cs)))
    [0, 1, 2]

/-- Greedy match of the regular expression `\d+\.\d+\.\d+` anchored at
the start of the character list, returning the matched text. -/
def matchTriple (cs : List Char) : Option (List Char) :=
  let d1 := cs.takeWhile Char.isDigit
  match cs.dropWhile Char.isDigit with
  | '.' :: r2 =>
    let d2 := r2.takeWhile Char.isDigit
    match r2.dropWhile Char.isDigit with
    | '.' :: r4 =>
      let d3 := r4.takeWhile Char.isDigit
      if d1 = [] ∨ d2 = [] ∨ d3 = [] then none
      else some (d1 ++ '.' :: d2 ++ '.' :: d3)
    | _ => none
  | _ => none

/-- Search for the regular expression `git version (\d+\.\d+\.\d+)`: at
each position of the banner try the 12-character literal marker followed
by the triple; the first position where the whole pattern matches yields
the capture group. -/
def findGitVersion : List Char → Option String
  | [] => none
  | c :: cs =>
    if leadsList "git version ".data (c :: cs) then
      match matchTriple ((c :: cs).drop 12) with
      | some v => some (String.mk v)
      | none => findGitVersion cs
    else findGitVersion cs

/-- `GitService.validateGitVersion` (GitService.ts lines 141 to 156).
The outcome of the `git --version` invocation is passed explicitly; a
throwing invocation is the `error` case, which the `catch` turns into
`false`. -/
def validateGitVersion (versionResult : Except String String) (minVersion : String) : Bool :=
  match versionResult with
  | .error _ => false
  | .ok banner =>
    match findGitVersion banner.data with
    | none => false
    | some currentVersion => compareVersions currentVersion minVersion ≥ 0

theorem compareLoop_triple (a b c d e f : Int) :
    compareLoop [some a, some b, some c] [some d, some e, some f] [0, 1, 2]
      = if a > d then 1 else if a < d then -1
        else if b > e then 1 else if b < e then -1
        else if c > f then 1 else if c < f then -1 else 0 := by
  simp [compareLoop, partAt, jsGt, jsLt]

/-- C4: `compareVersions` performs a 3-component left-to-right integer
comparison of major.minor.patch — `compareVersions "2.30.0" "2.30.0"`
is 0 and `compareVersions "2.9.0" "2.30.0"` is negative (numeric, not
lexical); on full triples the loop returns 0 exactly on equal triples,
-1 exactly when the left triple is lexicographically smaller, 1 exactly
when it is larger.  `validateGitVersion minVersion` is false when the
invocation fails or the banner has no parseable `git version x.y.z`
triple, and otherwise is true exactly when the parsed triple compares
at least `minVersion`. -/
theorem compareVersions_spec :
    compareVersions "2.30.0" "2.30.0" = 0
    ∧ compareVersions "2.9.0" "2.30.0" < 0
    ∧ (∀ a b c d e f : Int,
        (compareLoop [some a, some b, some c] [some d, some e, some f] [0, 1, 2] = 0
          ↔ (a = d ∧ b = e ∧ c = f))
        ∧ (compareLoop [some a, some b, some c] [some d, some e, some f] [0, 1, 2] = -1
          ↔ (a < d ∨ (a = d ∧ (b < e ∨ (b = e ∧ c < f)))))
        ∧ (compareLoop [some a, some b, some c] [some d, some e, some f] [0, 1, 2] = 1
          ↔ (d < a ∨ (d = a ∧ (e < b ∨ (e = b ∧ f < c))))))
    ∧ (∀ (minVersion e : String), validateGitVersion (Except.error e) minVersion = false)
    ∧ (∀ (banner minVersion : String), findGitVersion banner.data = none →
        validateGitVersion (Except.ok banner) minVersion = false)
    ∧ (∀ (banner v minVersion : String), findGitVersion banner.data = some v →
        (validateGitVersion (Except.ok banner) minVersion = true
          ↔ compareVersions v minVersion ≥ 0)) := by
  refine ⟨by decide, by decide, ?_, ?_, ?_, ?_⟩
  · intro a b c d e f
    rw [compareLoop_triple]
    refine ⟨?_, ?_, ?_⟩ <;>
      (split_ifs <;> (try simp only [false_iff, true_iff, iff_false, iff_true]) <;> omega)
  · intro minVersion e
    rfl
  · intro banner minVersion h
    simp [validateGitVersion, h]
  · intro banner v minVersion h
    simp [validateGitVersion, h, ge_iff_le, decide_eq_true_eq]

/-- Witness for C4: concrete banners exercising the parse-success and
parse-failure paths of `validateGitVersion`. -/
theorem compareVersions_spec_witness :
    validateGitVersion (Except.ok "git version 2.39.5 (Apple Git-154)") "2.30.0" = true
    ∧ validateGitVersion (Except.ok "fatal: not a git banner") "2.30.0" = false := by
  constructor
  · exact (compareVersions_spec.2.2.2.2.2 "git version 2.39.5 (Apple Git-154)" "2.39.5"
      "2.30.0" (by decide)).mpr (by decide)
  · exact compareVersions_spec.2.2.2.2.1 "fatal: not a git banner" "2.30.0" (by decide)

/-! ## Worktree removal (`WorktreeManager.removeWorktree`,
extension.ts `removeWorktreeFromPalette`)

The confirmation prompt and the gateway are environment inputs: the
prompt answer is the `Option String` returned by the modal warning
(`some "Remove"`, `some "Cancel"` or `none` when dismissed) and the
gateway's behaviour is a function from the issued `(path, force)`
arguments to a `GitOperationResult`.  The outcome records the returned
boolean together with the list of gateway `removeWorktree` invocations
actually issued, in order. -/

/-- Result of one `removeWorktree` run: the boolean the method returns
and every `(path, force)` pair passed to `GitService.removeWorktree`. -/
structure RemoveOutcome where
  returned : Bool
  gatewayCalls : List (String × Bool)
  deriving Repr, DecidableEq

/-- The `hasChanges` truthiness test
`worktree.changes && worktree.changes > 0`: an absent count and a zero
count are both falsy. -/
def hasChangesOf (w : WorktreeInfo) : Bool :=
  match w.changes with
  | some n => decide (0 < n)
  | none => false

/-- `WorktreeManager.removeWorktree` (WorktreeManager.ts lines 83 to
131): prompt first; any answer other than `Remove` returns false with
no gateway call; otherwise the gateway is invoked once with
`force = hasChanges`, a failed result is thrown and caught, and the
returned boolean is the gateway result's success flag. -/
def removeWorktree (w : WorktreeInfo) (confirmation : Option String)
    (gateway : String → Bool → GitOperationResult) : RemoveOutcome :=
  let hasChanges := hasChangesOf w
  if confirmation ≠ some "Remove" then
    ⟨false, []⟩
  else
    let result := gateway w.path hasChanges
    ⟨result.success, [(w.path, hasChanges)]⟩

/-- The candidate filter of the command-palette removal flow
(extension.ts `removeWorktreeFromPalette`): only records with
`isMain = false` are offered for removal. -/
def removalCandidates (worktrees : List WorktreeInfo) : List WorktreeInfo :=
  worktrees.filter (fun wt => !wt.isMain)

/-- C1 counterexample: for the main record (`isMain = true`,
`changes = some 0`) with the confirmation answered `Remove`,
`removeWorktree` issues the gateway remove call and returns the
gateway's success — it does not refuse, so the claimed unconditional
`ValidationError` refusal for `isMain` records does not hold. -/
theorem removeWorktree_main_counterexample :
    (WorktreeInfo.mk "/repo/main" (some "refs/heads/main") (some "0123abc") true false
      (some 0)).isMain = true
    ∧ removeWorktree
        (WorktreeInfo.mk "/repo/main" (some "refs/heads/main") (some "0123abc") true false
          (some 0))
        (some "Remove") (fun _ _ => GitOperationResult.mk true none none)
      = RemoveOutcome.mk true [("/repo/main", false)] := by
  exact ⟨rfl, rfl⟩

/-- C1 (amended): `removeWorktree` performs no `isMain` check at all —
its outcome is independent of the flag, so given the `Remove`
confirmation the gateway remove is issued even for an `isMain` record;
the main worktree is protected only by the command-palette flow, whose
candidate list never contains an `isMain` record. -/
theorem removeWorktree_no_isMain_check :
    (∀ (w : WorktreeInfo) (b : Bool) (confirmation : Option String)
        (gateway : String → Bool → GitOperationResult),
      removeWorktree { w with isMain := b } confirmation gateway
        = removeWorktree w confirmation gateway)
    ∧ (∀ (worktrees : List WorktreeInfo) (w : WorktreeInfo),
        w ∈ removalCandidates worktrees → w.isMain = false) := by
  constructor
  · intro w b confirmation gateway
    rfl
  · intro worktrees w hw
    simpa using (List.of_mem_filter hw)

/-- Witness for C1 (amended): the feature record passes the palette
filter of a two-record listing, hence is not `isMain`. -/
theorem removeWorktree_no_isMain_check_witness :
    (WorktreeInfo.mk "/repo/feat" none none false false none).isMain = false := by
  exact removeWorktree_no_isMain_check.2
    [WorktreeInfo.mk "/repo/main" none none true false none,
     WorktreeInfo.mk "/repo/feat" none none false false none]
    (WorktreeInfo.mk "/repo/feat" none none false false none)
    (by decide)

/-- C2: for every record with a positive change count, a confirmation
answer other than `Remove` (including `Cancel` and dismissal) makes
`removeWorktree` return false with no gateway invocation at all, and
with the `Remove` confirmation the single gateway invocation carries
`force = true`. -/
theorem removeWorktree_force_confirmation :
    ∀ (w : WorktreeInfo) (n : Nat) (confirmation : Option String)
      (gateway : String → Bool → GitOperationResult),
      w.changes = some n → 0 < n →
      ((confirmation ≠ some "Remove" →
          removeWorktree w confirmation gateway = RemoveOutcome.mk false [])
        ∧ (removeWorktree w (some "Remove") gateway).gatewayCalls = [(w.path, true)]) := by
  intro w n confirmation gateway hch hpos
  have hhc : hasChangesOf w = true := by
    simp [hasChangesOf, hch, hpos]
  constructor
  · intro hc
    simp [removeWorktree, hc]
  · simp [removeWorktree, hhc]

/-- Witness for C2: a record with 3 uncommitted changes, cancelled and
confirmed. -/
theorem removeWorktree_force_confirmation_witness :
    removeWorktree
        (WorktreeInfo.mk "/repo/feat" (some "refs/heads/feat") none false false (some 3))
        (some "Cancel") (fun _ _ => GitOperationResult.mk true none none)
      = RemoveOutcome.mk false []
    ∧ (removeWorktree
        (WorktreeInfo.mk "/repo/feat" (some "refs/heads/feat") none false false (some 3))
        (some "Remove") (fun _ _ => GitOperationResult.mk true none none)).gatewayCalls
      = [("/repo/feat", true)] := by
  have h := removeWorktree_force_confirmation
    (WorktreeInfo.mk "/repo/feat" (some "refs/heads/feat") none false false (some 3)) 3
    (some "Cancel") (fun _ _ => GitOperationResult.mk true none none) rfl (by decide)
  exact ⟨h.1 (by decide), h.2⟩

/-! ## Read-only gateway operations (`GitService.listWorktrees`,
`getChangesCount`, `branchExists`, `getAllBranches`)

Each takes the outcome of its external git invocation as an `Except`
value; the `error` case is the invocation throwing, which the `catch`
block turns into the operation's default value after logging. -/

/-- `GitService.listWorktrees` (GitService.ts lines 18 to 26). -/
def listWorktreesGw (raw : Except String String) : List WorktreeInfo :=
  match raw with
  | .ok output => parseWorktreeList output
  | .error _ => []

/-- `GitService.getChangesCount` (GitService.ts lines 126 to 136): the
argument is the status call's file list, or the thrown error. -/
def getChangesCount (status : Except String (List String)) : Nat :=
  match status with
  | .ok files => files.length
  | .error _ => 0

/-- `GitService.branchExists` (GitService.ts lines 93 to 101): the
argument is the local-branch listing, or the thrown error. -/
def branchExists (localBranches : Except String (List String)) (branchName : String) : Bool :=
  match localBranches with
  | .ok all => all.contains branchName
  | .error _ => false

/-- Model of the JavaScript `[...new Set(xs)]` de-duplication: keep the
first occurrence of each element, in order. -/
def jsSetDedup : List String → List String :=
  go []
where
  /-- Recursive pass carrying the set of already-seen elements. -/
  go (seen : List String) : List String → List String
    | [] => []
    | x :: xs => if x ∈ seen then go seen xs else x :: go (x :: seen) xs

/-- `GitService.getAllBranches` (GitService.ts lines 106 to 121): local
branches fetched first, then remote branches (each remote name trimmed),
concatenated and de-duplicated; a throw in either call degrades the
whole result to the empty list. -/
def getAllBranches (localBranches remoteBranches : Except String (List String)) :
    List String :=
  match localBranches with
  | .error _ => []
  | .ok localAll =>
    match remoteBranches with
    | .error _ => []
    | .ok remoteAll =>
      jsSetDedup (localAll ++ remoteAll.map (fun b => String.mk (trimChars b.data)))

/-- C5: on a failed external invocation every read-only gateway
operation returns its default instead of propagating: the worktree
listing is empty, the change count is 0, `branchExists` is false and the
branch listing is empty, whichever of its two invocations failed.  All
four are total Lean functions, so none of them can throw past the
gateway boundary. -/
theorem gateway_degrades_on_failure :
    ∀ (e : String) (branchName : String) (other : Except String (List String)),
      listWorktreesGw (Except.error e) = []
      ∧ getChangesCount (Except.error e) = 0
      ∧ branchExists (Except.error e) branchName = false
      ∧ getAllBranches (Except.error e) other = []
      ∧ getAllBranches other (Except.error e) = [] := by
  intro e branchName other
  refine ⟨rfl, rfl, rfl, rfl, ?_⟩
  cases other with
  | ok l => rfl
  | error f => rfl

/-! ## Manager-level enrichment (`WorktreeManager.getWorktrees`) -/

/-- `WorktreeManager.getWorktrees` (WorktreeManager.ts lines 225 to
237): the records of one listing, each enriched with the change count
looked up for its path (`Promise.all` over `map` preserves positions). -/
def getWorktrees (worktrees : List WorktreeInfo) (changesOf : String → Nat) :
    List WorktreeInfo :=
  worktrees.map (fun wt => { wt with changes := some (changesOf wt.path) })

/-- Projection to the five fields `getWorktrees` must not touch. -/
def projBase (w : WorktreeInfo) : String × Option String × Option String × Bool × Bool :=
  (w.path, w.branch, w.commit, w.isMain, w.isLocked)

/-- C10: `getWorktrees` returns one record per input record, in the same
positions; each output record agrees with the corresponding input record
on `path`, `branch`, `commit`, `isMain` and `isLocked`, and differs only
by carrying `changes = changesOf path`. -/
theorem getWorktrees_frame :
    ∀ (worktrees : List WorktreeInfo) (changesOf : String → Nat),
      (getWorktrees worktrees changesOf).length = worktrees.length
      ∧ (∀ i : Nat,
          ((getWorktrees worktrees changesOf)[i]?).map projBase
            = (worktrees[i]?).map projBase)
      ∧ (∀ i : Nat,
          ((getWorktrees worktrees changesOf)[i]?).map (fun w => w.changes)
            = (worktrees[i]?).map (fun w => some (changesOf w.path))) := by
  intro worktrees changesOf
  refine ⟨by simp [getWorktrees], ?_, ?_⟩
  · intro i
    rw [getWorktrees, List.getElem?_map]
    cases worktrees[i]? with
    | none => rfl
    | some w => rfl
  · intro i
    rw [getWorktrees, List.getElem?_map]
    cases worktrees[i]? with
    | none => rfl
    | some w => rfl

/-! ## Creation-request validation
(`WorktreeManager.validateCreateOptions`, WorktreeManager.ts lines 242
to 269)

The branch-existence answer and the filesystem stat outcome are
environment inputs: `branchExistsB` is the boolean the gateway returned
and `pathExistsB` is whether `workspace.fs.stat` succeeded on the
destination (its throw is the path being free). -/

/-- The name test `/^[a-zA-Z0-9-_]+$/.test(name)`: non-empty and every
character a letter, digit, hyphen or underscore. -/
def nameValid (name : String) : Bool :=
  name.data ≠ [] && name.data.all (fun c => c.isAlphanum || c = '-' || c = '_')

/-- The name-format violation message. -/
def msgName : String :=
  "Worktree name must contain only letters, numbers, hyphens, and underscores"

/-- The missing-branch violation message. -/
def msgBranch (branch : String) : String :=
  "Branch \"" ++ branch ++ "\" does not exist"

/-- The occupied-path violation message. -/
def msgPath (fullPath : String) : String :=
  "Path already exists: " ++ fullPath

/-- `WorktreeManager.validateCreateOptions`: the three checks in source
order, every violation collected into one list. -/
def validateCreateOptions (name branch : String) (createBranch : Bool)
    (branchExistsB : Bool) (fullPath : String) (pathExistsB : Bool) : List String :=
  (if !(nameValid name) then [msgName] else [])
    ++ (if !createBranch && !branchExistsB then [msgBranch branch] else [])
    ++ (if pathExistsB then [msgPath fullPath] else [])

theorem head_of_append (s t : String) (c : Char) (h : s.data.head? = some c) :
    (s ++ t).data.head? = some c := by
  rw [String.data_append]
  cases hs : s.data with
  | nil => rw [hs] at h; simp at h
  | cons a as => rw [hs] at h; simpa using h

theorem msgName_ne_msgBranch (branch : String) : msgName ≠ msgBranch branch := by
  intro h
  have h1 : msgName.data.head? = some 'W' := rfl
  have h2 : (msgBranch branch).data.head? = some 'B' :=
    head_of_append "Branch \"" (branch ++ "\" does not exist") 'B' rfl
  rw [h, h2] at h1
  exact absurd h1 (by decide)

theorem msgName_ne_msgPath (fullPath : String) : msgName ≠ msgPath fullPath := by
  intro h
  have h1 : msgName.data.head? = some 'W' := rfl
  have h2 : (msgPath fullPath).data.head? = some 'P' :=
    head_of_append "Path already exists: " fullPath 'P' rfl
  rw [h, h2] at h1
  exact absurd h1 (by decide)

theorem msgBranch_ne_msgPath (branch fullPath : String) :
    msgBranch branch ≠ msgPath fullPath := by
  intro h
  have h1 : (msgBranch branch).data.head? = some 'B' :=
    head_of_append "Branch \"" (branch ++ "\" does not exist") 'B' rfl
  have h2 : (msgPath fullPath).data.head? = some 'P' :=
    head_of_append "Path already exists: " fullPath 'P' rfl
  rw [h, h2] at h1
  exact absurd h1 (by decide)

/-- C7: `validateCreateOptions` runs all three checks and collects every
violation: the name-format message is in the result exactly when the
name fails the `[a-zA-Z0-9-_]+` test, the branch message exactly when no
new branch is requested and the branch does not exist, the path message
exactly when the destination already exists — each independent of the
other checks; and the name `feat auth` (a space) fails the name test. -/
theorem validateCreateOptions_collects :
    ∀ (name branch : String) (createBranch branchExistsB : Bool)
      (fullPath : String) (pathExistsB : Bool),
      ((msgName ∈ validateCreateOptions name branch createBranch branchExistsB
          fullPath pathExistsB) ↔ nameValid name = false)
      ∧ ((msgBranch branch ∈ validateCreateOptions name branch createBranch branchExistsB
          fullPath pathExistsB) ↔ (createBranch = false ∧ branchExistsB = false))
      ∧ ((msgPath fullPath ∈ validateCreateOptions name branch createBranch branchExistsB
          fullPath pathExistsB) ↔ pathExistsB = true)
      ∧ nameValid "feat auth" = false := by
  intro name branch createBranch branchExistsB fullPath pathExistsB
  have hnb := msgName_ne_msgBranch branch
  have hnp := msgName_ne_msgPath fullPath
  have hbp := msgBranch_ne_msgPath branch fullPath
  have hfa : nameValid "feat auth" = false := by decide
  cases hn : nameValid name <;> cases hc : createBranch <;>
    cases hb : branchExistsB <;> cases hp : pathExistsB <;>
    simp [validateCreateOptions, hn, hc, hb, hp, hfa, hnb, hnp, hbp,
      Ne.symm hnb, Ne.symm hnp, Ne.symm hbp]

theorem jsSetDedup_go_mem (x : String) : ∀ (l seen : List String),
    (x ∈ jsSetDedup.go seen l ↔ (x ∈ l ∧ x ∉ seen))
  | [], seen => by simp [jsSetDedup.go]
  | y :: ys, seen => by
    rw [show jsSetDedup.go seen (y :: ys)
        = if y ∈ seen then jsSetDedup.go seen ys
          else y :: jsSetDedup.go (y :: seen) ys from rfl]
    by_cases hy : y ∈ seen
    · rw [if_pos hy, jsSetDedup_go_mem x ys seen]
      constructor
      · rintro ⟨h1, h2⟩
        exact ⟨List.mem_cons_of_mem _ h1, h2⟩
      · rintro ⟨h1, h2⟩
        rcases List.mem_cons.mp h1 with h | h
        · subst h
          exact absurd hy h2
        · exact ⟨h, h2⟩
    · rw [if_neg hy, List.mem_cons, jsSetDedup_go_mem x ys (y :: seen)]
      constructor
      · rintro (h | ⟨h1, h2⟩)
        · subst h
          exact ⟨List.mem_cons_self _ _, hy⟩
        · exact ⟨List.mem_cons_of_mem _ h1,
            fun hc => h2 (List.mem_cons_of_mem _ hc)⟩
      · rintro ⟨h1, h2⟩
        rcases List.mem_cons.mp h1 with h | h
        · exact Or.inl h
        · by_cases hxy : x = y
          · exact Or.inl hxy
          · refine Or.inr ⟨h, fun hc => ?_⟩
            rcases List.mem_cons.mp hc with h3 | h3
            · exact hxy h3
            · exact h2 h3

theorem jsSetDedup_mem (x : String) (l : List String) :
    x ∈ jsSetDedup l ↔ x ∈ l := by
  rw [show jsSetDedup l = jsSetDedup.go [] l from rfl, jsSetDedup_go_mem]
  simp

/-- C9: `branchExists` consults only the local branch listing, so a name
that appears only among the (trimmed) remote names is reported
non-existent even though `getAllBranches` lists it; consequently
`validateCreateOptions` with `createBranch = false` collects the
missing-branch violation for that name. -/
theorem branchExists_local_only :
    ∀ (localAll remoteAll : List String) (name workName fullPath : String)
      (pathExistsB : Bool),
      name ∉ localAll →
      name ∈ remoteAll.map (fun b => String.mk (trimChars b.data)) →
      branchExists (Except.ok localAll) name = false
      ∧ name ∈ getAllBranches (Except.ok localAll) (Except.ok remoteAll)
      ∧ msgBranch name ∈ validateCreateOptions workName name false
          (branchExists (Except.ok localAll) name) fullPath pathExistsB := by
  intro localAll remoteAll name workName fullPath pathExistsB hloc hrem
  have hbf : branchExists (Except.ok localAll) name = false := by
    simp [branchExists, hloc]
  refine ⟨hbf, ?_, ?_⟩
  · rw [getAllBranches, jsSetDedup_mem]
    exact List.mem_append_right _ hrem
  · rw [hbf]
    simp [validateCreateOptions]

/-- Witness for C9: the branch `origin/feature` exists only remotely. -/
theorem branchExists_local_only_witness :
    branchExists (Except.ok ["main"]) "origin/feature" = false
    ∧ "origin/feature" ∈ getAllBranches (Except.ok ["main"]) (Except.ok ["origin/feature"])
    ∧ msgBranch "origin/feature" ∈ validateCreateOptions "feat" "origin/feature" false
        (branchExists (Except.ok ["main"]) "origin/feature") "/repo/../feat" false := by
  exact branchExists_local_only ["main"] ["origin/feature"] "origin/feature" "feat"
    "/repo/../feat" false (by decide) (by decide)

/-! ## Session registry (`TerminalTracker`)

The singleton `Map<string, TrackedTerminal[]>` keyed by worktree path is
modelled as an insertion-ordered association list with unique keys (the
iteration order of a JavaScript `Map`).  The opaque terminal object
compared with `===` is modelled as a numeric handle; `new Date()` is a
clock value passed in by the environment.  Each mutating operation
returns the new state together with the list of change events fired. -/

/-- One entry of the tracker's `TrackedTerminal[]` buckets. -/
structure TrackedTerminal where
  handle : Nat
  cliName : String
  worktreePath : String
  startTime : Nat
  deriving Repr, DecidableEq

/-- The tracker's map of worktree path to tracked sessions. -/
structure TrackerState where
  buckets : List (String × List TrackedTerminal)
  deriving Repr, DecidableEq

/-- JavaScript `Map.get`. -/
def mapGet (k : String) :
    List (String × List TrackedTerminal) → Option (List TrackedTerminal)
  | [] => none
  | (k2, v) :: rest => if k2 = k then some v else mapGet k rest

/-- JavaScript `Map.set`: update an existing key in place, otherwise
append the new entry at the end. -/
def mapSet (k : String) (v : List TrackedTerminal) :
    List (String × List TrackedTerminal) → List (String × List TrackedTerminal)
  | [] => [(k, v)]
  | (k2, v2) :: rest => if k2 = k then (k, v) :: rest else (k2, v2) :: mapSet k v rest

/-- `TerminalTracker.trackTerminal` (TerminalTracker.ts lines 38 to 51):
append the new session to its path's bucket and fire one change event
carrying the path. -/
def trackTerminal (st : TrackerState) (handle : Nat) (worktreePath cliName : String)
    (time : Nat) : TrackerState × List String :=
  let tracked : TrackedTerminal := ⟨handle, cliName, worktreePath, time⟩
  let existing := (mapGet worktreePath st.buckets).getD []
  (⟨mapSet worktreePath (existing ++ [tracked]) st.buckets⟩, [worktreePath])

/-- The `splice` at the `findIndex` position: remove the first session
whose handle matches. -/
def removeFirstHandle (h : Nat) : List TrackedTerminal → List TrackedTerminal
  | [] => []
  | t :: ts => if t.handle = h then ts else t :: removeFirstHandle h ts

/-- The bucket scan of `TerminalTracker.removeTerminal`
(TerminalTracker.ts lines 56 to 70): the first bucket containing the
handle has that session spliced out, the bucket is deleted when it
becomes empty, one change event fires for its path and the loop breaks;
every other bucket is untouched. -/
def removeTerminalGo (h : Nat) :
    List (String × List TrackedTerminal) →
      List (String × List TrackedTerminal) × List String
  | [] => ([], [])
  | (p, ts) :: rest =>
    if ts.any (fun t => t.handle = h) then
      let ts2 := removeFirstHandle h ts
      if ts2 = [] then (rest, [p]) else ((p, ts2) :: rest, [p])
    else
      let r := removeTerminalGo h rest
      ((p, ts) :: r.1, r.2)

/-- `TerminalTracker.removeTerminal`, the `untrack` entry point invoked
by the `onDidCloseTerminal` host notification. -/
def removeTerminal (st : TrackerState) (h : Nat) : TrackerState × List String :=
  (⟨(removeTerminalGo h st.buckets).1⟩, (removeTerminalGo h st.buckets).2)

/-- Whether any bucket holds a session with the handle. -/
def handlePresent (st : TrackerState) (h : Nat) : Bool :=
  st.buckets.any (fun b => b.2.any (fun t => t.handle = h))

/-- Number of sessions with the handle, across all buckets. -/
def countHandle (st : TrackerState) (h : Nat) : Nat :=
  (st.buckets.map (fun b => b.2.countP (fun t => t.handle = h))).sum

/-- Path of the first bucket containing the handle. -/
def firstPathWith (st : TrackerState) (h : Nat) : Option String :=
  (st.buckets.find? (fun b => b.2.any (fun t => t.handle = h))).map (fun b => b.1)

/-- A registry mutation: a `trackTerminal` call, or the host's
process-closed notification driving `removeTerminal`. -/
inductive TrackerOp where
  | track (handle : Nat) (worktreePath cliName : String) (time : Nat)
  | untrack (handle : Nat)
  deriving Repr, DecidableEq

/-- Apply one mutation to the registry state. -/
def applyOp (st : TrackerState) : TrackerOp → TrackerState
  | .track h p n t => (trackTerminal st h p n t).1
  | .untrack h => (removeTerminal st h).1

/-- Run a call sequence from the singleton's initial empty registry. -/
def runOps (ops : List TrackerOp) : TrackerState :=
  ops.foldl applyOp ⟨[]⟩

/-- No worktree path maps to an empty session list. -/
def noEmptyBuckets (st : TrackerState) : Bool :=
  st.buckets.all (fun b => !(b.2.isEmpty))

theorem removeFirstHandle_countP_self (h : Nat) :
    ∀ ts : List TrackedTerminal, ts.any (fun t => t.handle = h) = true →
      (removeFirstHandle h ts).countP (fun t => t.handle = h) + 1
        = ts.countP (fun t => t.handle = h)
  | [], hany => by simp at hany
  | t :: ts, hany => by
    by_cases ht : t.handle = h
    · rw [show removeFirstHandle h (t :: ts) = ts from by
          rw [removeFirstHandle, if_pos ht]]
      rw [List.countP_cons_of_pos _ _ (by simpa using ht)]
    · have hany2 : ts.any (fun t => t.handle = h) = true := by
        simpa [ht] using hany
      rw [show removeFirstHandle h (t :: ts) = t :: removeFirstHandle h ts from by
          rw [removeFirstHandle, if_neg ht]]
      by_cases hcp : (fun t : TrackedTerminal => decide (t.handle = h)) t = true
      · exact absurd (of_decide_eq_true hcp) ht
      · rw [List.countP_cons_of_neg _ _ (by simpa using ht),
          List.countP_cons_of_neg _ _ (by simpa using ht)]
        exact removeFirstHandle_countP_self h ts hany2

theorem removeFirstHandle_countP_other (h h2 : Nat) (hne : h2 ≠ h) :
    ∀ ts : List TrackedTerminal,
      (removeFirstHandle h ts).countP (fun t => t.handle = h2)
        = ts.countP (fun t => t.handle = h2)
  | [] => rfl
  | t :: ts => by
    by_cases ht : t.handle = h
    · rw [show removeFirstHandle h (t :: ts) = ts from by
          rw [removeFirstHandle, if_pos ht]]
      have : ¬ (t.handle = h2) := by
        rw [ht]
        exact fun he => hne he.symm
      rw [List.countP_cons_of_neg _ _ (by simpa using this)]
    · rw [show removeFirstHandle h (t :: ts) = t :: removeFirstHandle h ts from by
          rw [removeFirstHandle, if_neg ht]]
      by_cases hm : t.handle = h2
      · rw [List.countP_cons_of_pos _ _ (by simpa using hm),
          List.countP_cons_of_pos _ _ (by simpa using hm),
          removeFirstHandle_countP_other h h2 hne ts]
      · rw [List.countP_cons_of_neg _ _ (by simpa using hm),
          List.countP_cons_of_neg _ _ (by simpa using hm),
          removeFirstHandle_countP_other h h2 hne ts]

theorem removeTerminalGo_absent (h : Nat) :
    ∀ bs : List (String × List TrackedTerminal),
      bs.any (fun b => b.2.any (fun t => t.handle = h)) = false →
      removeTerminalGo h bs = (bs, [])
  | [], _ => rfl
  | (p, ts) :: rest, hab => by
    have h1 : ts.any (fun t => t.handle = h) = false := by
      simp only [List.any_cons, Bool.or_eq_false_iff] at hab
      exact hab.1
    have h2 : rest.any (fun b => b.2.any (fun t => t.handle = h)) = false := by
      simp only [List.any_cons, Bool.or_eq_false_iff] at hab
      exact hab.2
    rw [show removeTerminalGo h ((p, ts) :: rest)
        = ((p, ts) :: (removeTerminalGo h rest).1, (removeTerminalGo h rest).2) from by
          rw [removeTerminalGo, if_neg (by simp [h1])],
      removeTerminalGo_absent h rest h2]

theorem removeTerminalGo_present (h : Nat) :
    ∀ bs : List (String × List TrackedTerminal),
      bs.any (fun b => b.2.any (fun t => t.handle = h)) = true →
      ∃ p, (bs.find? (fun b => b.2.any (fun t => t.handle = h))).map (fun b => b.1) = some p
        ∧ (removeTerminalGo h bs).2 = [p]
        ∧ ((removeTerminalGo h bs).1.map
            (fun b => b.2.countP (fun t => t.handle = h))).sum + 1
          = (bs.map (fun b => b.2.countP (fun t => t.handle = h))).sum
        ∧ (∀ h2, h2 ≠ h →
            ((removeTerminalGo h bs).1.map
              (fun b => b.2.countP (fun t => t.handle = h2))).sum
            = (bs.map (fun b => b.2.countP (fun t => t.handle = h2))).sum)
  | [], hab => by simp at hab
  | (p, ts) :: rest, hab => by
    by_cases hts : ts.any (fun t => t.handle = h) = true
    · have hfind : (((p, ts) :: rest).find?
          (fun b => b.2.any (fun t => t.handle = h))).map (fun b => b.1) = some p := by
        rw [List.find?_cons_of_pos _ (by simpa using hts)]
        rfl
      have hself := removeFirstHandle_countP_self h ts hts
      by_cases hemp : removeFirstHandle h ts = []
      · have hgo : removeTerminalGo h ((p, ts) :: rest) = (rest, [p]) := by
          rw [removeTerminalGo, if_pos (by simpa using hts)]
          simp [hemp]
        refine ⟨p, hfind, by rw [hgo], ?_, ?_⟩
        · rw [hgo]
          rw [hemp] at hself
          simp only [List.countP_nil] at hself
          simp only [List.map_cons, List.sum_cons]
          omega
        · intro h2 hne
          rw [hgo]
          have hother := removeFirstHandle_countP_other h h2 hne ts
          rw [hemp] at hother
          simp only [List.map_cons, List.sum_cons]
          simp only [List.countP_nil] at hother
          omega
      · have hgo : removeTerminalGo h ((p, ts) :: rest)
            = ((p, removeFirstHandle h ts) :: rest, [p]) := by
          rw [removeTerminalGo, if_pos (by simpa using hts)]
          simp [hemp]
        refine ⟨p, hfind, by rw [hgo], ?_, ?_⟩
        · rw [hgo]
          simp only [List.map_cons, List.sum_cons]
          omega
        · intro h2 hne
          rw [hgo]
          have hother := removeFirstHandle_countP_other h h2 hne ts
          simp only [List.map_cons, List.sum_cons]
          omega
    · have hts2 : ts.any (fun t => t.handle = h) = false := by
        simpa using hts
      have hrest : rest.any (fun b => b.2.any (fun t => t.handle = h)) = true := by
        simp only [List.any_cons, hts2, Bool.false_or] at hab
        exact hab
      obtain ⟨q, hfind, hev, hsum, hoth⟩ := removeTerminalGo_present h rest hrest
      have hgo : removeTerminalGo h ((p, ts) :: rest)
          = ((p, ts) :: (removeTerminalGo h rest).1, (removeTerminalGo h rest).2) := by
        rw [removeTerminalGo, if_neg (by simp [hts2])]
      refine ⟨q, ?_, by rw [hgo]; exact hev, ?_, ?_⟩
      · rw [List.find?_cons_of_neg _ (by simp [hts2])]
        exact hfind
      · rw [hgo]
        simp only [List.map_cons, List.sum_cons]
        omega
      · intro h2 hne
        have := hoth h2 hne
        rw [hgo]
        simp only [List.map_cons, List.sum_cons]
        omega

theorem mapSet_noEmpty (k : String) (v : List TrackedTerminal) (hv : v ≠ []) :
    ∀ bs : List (String × List TrackedTerminal),
      bs.all (fun b => !(b.2.isEmpty)) = true →
      (mapSet k v bs).all (fun b => !(b.2.isEmpty)) = true
  | [], _ => by simp [mapSet, List.isEmpty_iff, hv]
  | (k2, v2) :: rest, hall => by
    simp only [List.all_cons, Bool.and_eq_true] at hall
    by_cases hk : k2 = k
    · rw [show mapSet k v ((k2, v2) :: rest) = (k, v) :: rest from by
          rw [mapSet, if_pos hk]]
      simp only [List.all_cons, Bool.and_eq_true]
      exact ⟨by simpa [List.isEmpty_iff] using hv, hall.2⟩
    · rw [show mapSet k v ((k2, v2) :: rest) = (k2, v2) :: mapSet k v rest from by
          rw [mapSet, if_neg hk]]
      simp only [List.all_cons, Bool.and_eq_true]
      exact ⟨hall.1, mapSet_noEmpty k v hv rest hall.2⟩

theorem trackTerminal_noEmpty (st : TrackerState) (h : Nat) (p n : String) (t : Nat)
    (hst : noEmptyBuckets st = true) :
    noEmptyBuckets (trackTerminal st h p n t).1 = true := by
  exact mapSet_noEmpty p _ (by simp) st.buckets hst

theorem removeTerminalGo_noEmpty (h : Nat) :
    ∀ bs : List (String × List TrackedTerminal),
      bs.all (fun b => !(b.2.isEmpty)) = true →
      (removeTerminalGo h bs).1.all (fun b => !(b.2.isEmpty)) = true
  | [], _ => rfl
  | (p, ts) :: rest, hall => by
    simp only [List.all_cons, Bool.and_eq_true] at hall
    by_cases hts : ts.any (fun t => t.handle = h) = true
    · by_cases hemp : removeFirstHandle h ts = []
      · rw [show (removeTerminalGo h ((p, ts) :: rest)).1 = rest from by
            rw [removeTerminalGo, if_pos (by simpa using hts)]
            simp [hemp]]
        exact hall.2
      · rw [show (removeTerminalGo h ((p, ts) :: rest)).1
            = (p, removeFirstHandle h ts) :: rest from by
            rw [removeTerminalGo, if_pos (by simpa using hts)]
            simp [hemp]]
        simp only [List.all_cons, Bool.and_eq_true]
        exact ⟨by simpa [List.isEmpty_iff] using hemp, hall.2⟩
    · rw [show (removeTerminalGo h ((p, ts) :: rest)).1
          = (p, ts) :: (removeTerminalGo h rest).1 from by
          rw [removeTerminalGo, if_neg (by simpa using hts)]]
      simp only [List.all_cons, Bool.and_eq_true]
      exact ⟨hall.1, removeTerminalGo_noEmpty h rest hall.2⟩

theorem foldl_noEmpty :
    ∀ (ops : List TrackerOp) (st : TrackerState),
      noEmptyBuckets st = true → noEmptyBuckets (ops.foldl applyOp st) = true
  | [], st, hst => hst
  | op :: ops, st, hst => by
    rw [List.foldl_cons]
    refine foldl_noEmpty ops (applyOp st op) ?_
    cases op with
    | track h p n t => exact trackTerminal_noEmpty st h p n t hst
    | untrack h => exact removeTerminalGo_noEmpty h st.buckets hst

/-- C6: `untrack` of an absent handle leaves the registry unchanged and
fires nothing; `untrack` of a present handle fires exactly one event
carrying the path of the (first) bucket holding it, removes exactly one
session with that handle and no session of any other handle, and after
any `track`/`untrack` call sequence from the empty singleton state no
worktree path maps to an empty session list (emptied buckets are
deleted). -/
theorem untrack_spec :
    (∀ (st : TrackerState) (h : Nat),
      handlePresent st h = false → removeTerminal st h = (st, []))
    ∧ (∀ (st : TrackerState) (h : Nat),
        handlePresent st h = true →
        ∃ p, firstPathWith st h = some p
          ∧ (removeTerminal st h).2 = [p]
          ∧ countHandle (removeTerminal st h).1 h + 1 = countHandle st h
          ∧ (∀ h2, h2 ≠ h →
              countHandle (removeTerminal st h).1 h2 = countHandle st h2))
    ∧ (∀ ops : List TrackerOp, noEmptyBuckets (runOps ops) = true) := by
  refine ⟨?_, ?_, ?_⟩
  · intro st h hab
    rw [removeTerminal, removeTerminalGo_absent h st.buckets hab]
  · intro st h hab
    obtain ⟨p, hfind, hev, hsum, hoth⟩ := removeTerminalGo_present h st.buckets hab
    exact ⟨p, hfind, hev, hsum, hoth⟩
  · intro ops
    exact foldl_noEmpty ops ⟨[]⟩ rfl

/-- Witness for C6: a one-session registry; untracking an unknown handle
is a no-op, untracking the known handle fires one event for its path. -/
theorem untrack_spec_witness :
    removeTerminal (TrackerState.mk [("/repo/feat", [TrackedTerminal.mk 1 "claude" "/repo/feat" 0])]) 2
      = (TrackerState.mk [("/repo/feat", [TrackedTerminal.mk 1 "claude" "/repo/feat" 0])], [])
    ∧ (∃ p, firstPathWith
          (TrackerState.mk [("/repo/feat", [TrackedTerminal.mk 1 "claude" "/repo/feat" 0])]) 1
          = some p
        ∧ (removeTerminal
            (TrackerState.mk [("/repo/feat", [TrackedTerminal.mk 1 "claude" "/repo/feat" 0])]) 1).2
          = [p]
        ∧ countHandle (removeTerminal
            (TrackerState.mk [("/repo/feat", [TrackedTerminal.mk 1 "claude" "/repo/feat" 0])]) 1).1 1 + 1
          = countHandle
            (TrackerState.mk [("/repo/feat", [TrackedTerminal.mk 1 "claude" "/repo/feat" 0])]) 1
        ∧ (∀ h2, h2 ≠ 1 →
            countHandle (removeTerminal
              (TrackerState.mk [("/repo/feat", [TrackedTerminal.mk 1 "claude" "/repo/feat" 0])]) 1).1 h2
            = countHandle
              (TrackerState.mk [("/repo/feat", [TrackedTerminal.mk 1 "claude" "/repo/feat" 0])]) h2)) := by
  constructor
  · exact untrack_spec.1
      (TrackerState.mk [("/repo/feat", [TrackedTerminal.mk 1 "claude" "/repo/feat" 0])]) 2
      (by decide)
  · exact untrack_spec.2.1
      (TrackerState.mk [("/repo/feat", [TrackedTerminal.mk 1 "claude" "/repo/feat" 0])]) 1
      (by decide)

/-! ## Enriched tree view (`WorktreeProvider.getChildren`)

`localeCompare` is locale-dependent, so the string comparator is an
environment parameter `cmp`, assumed (as the ECMAScript collator
guarantees) to be a total preorder; the sort is modelled by a stable
merge sort with the source comparator, matching the sorted-permutation
guarantee of `Array.prototype.sort`.  `Promise.all` keeps the enrichment
results at their input positions, so the completion order of the
concurrent lookups does not appear in the model. -/

/-- The record shape produced by the enrichment spread
`{ ...wt, changes, activeCLIs }`. -/
structure EnrichedWorktree where
  path : String
  branch : Option String
  commit : Option String
  isMain : Bool
  isLocked : Bool
  changes : Nat
  activeCLIs : List String
  deriving Repr, DecidableEq

/-- `path.basename`: the last non-empty slash-separated segment (the
whole path when there is none). -/
def basename (p : String) : String :=
  match ((splitCh '/' p.data).filter (fun cs => cs ≠ [])).getLast? with
  | some cs => String.mk cs
  | none => p

/-- Enrichment of one listed record with its change count and active CLI
labels. -/
def enrichRecord (changesOf : String → Nat) (clisOf : String → List String)
    (w : WorktreeInfo) : EnrichedWorktree :=
  ⟨w.path, w.branch, w.commit, w.isMain, w.isLocked, changesOf w.path, clisOf w.path⟩

/-- The sort comparator of `getChildren`: an `isMain` record wins,
otherwise `localeCompare` of the basenames. -/
def cmpWt (cmp : String → String → Int) (a b : EnrichedWorktree) : Int :=
  if a.isMain then -1
  else if b.isMain then 1
  else cmp (basename a.path) (basename b.path)

/-- The at-most ordering induced by the comparator. -/
def leWt (cmp : String → String → Int) (a b : EnrichedWorktree) : Bool :=
  cmpWt cmp a b ≤ 0

/-- `WorktreeProvider.getChildren` (WorktreeProvider.ts lines 415 to
449): list, enrich positionally, sort with the comparator. -/
def getChildrenSorted (cmp : String → String → Int) (changesOf : String → Nat)
    (clisOf : String → List String) (worktrees : List WorktreeInfo) :
    List EnrichedWorktree :=
  (worktrees.map (enrichRecord changesOf clisOf)).mergeSort (leWt cmp)

theorem leWt_total (cmp : String → String → Int)
    (htot : ∀ a b, cmp a b ≤ 0 ∨ cmp b a ≤ 0) (a b : EnrichedWorktree) :
    leWt cmp a b || leWt cmp b a := by
  by_cases ha : a.isMain
  · have : leWt cmp a b = true := by simp [leWt, cmpWt, ha]
    simp [this]
  · by_cases hb : b.isMain
    · have : leWt cmp b a = true := by simp [leWt, cmpWt, hb]
      simp [this]
    · rcases htot (basename a.path) (basename b.path) with h | h
      · have : leWt cmp a b = true := by simp [leWt, cmpWt, ha, hb, h]
        simp [this]
      · have : leWt cmp b a = true := by simp [leWt, cmpWt, ha, hb, h]
        simp [this]

theorem leWt_trans (cmp : String → String → Int)
    (htr : ∀ a b c, cmp a b ≤ 0 → cmp b c ≤ 0 → cmp a c ≤ 0)
    (a b c : EnrichedWorktree) :
    leWt cmp a b → leWt cmp b c → leWt cmp a c := by
  intro hab hbc
  by_cases ha : a.isMain
  · simp [leWt, cmpWt, ha]
  · by_cases hb : b.isMain
    · simp [leWt, cmpWt, ha, hb] at hab
    · by_cases hc : c.isMain
      · simp [leWt, cmpWt, hb, hc] at hbc
      · simp only [leWt, cmpWt, ha, hb, hc, if_false, decide_eq_true_eq] at hab hbc ⊢
        exact htr _ _ _ hab hbc

/-- C8: for every listing and every collator satisfying the ECMAScript
totality and transitivity guarantees, the tree view is a permutation of
the enriched records — exactly one per listed worktree, each carrying
the change count and session labels looked up for its own path,
independent of lookup completion order — in which every `isMain` record
precedes every other record and any two non-main records appear in
`localeCompare` order of the final path segments. -/
theorem getChildren_sorted_spec :
    ∀ (cmp : String → String → Int) (changesOf : String → Nat)
      (clisOf : String → List String) (worktrees : List WorktreeInfo),
      (∀ a b, cmp a b ≤ 0 ∨ cmp b a ≤ 0) →
      (∀ a b c, cmp a b ≤ 0 → cmp b c ≤ 0 → cmp a c ≤ 0) →
      (getChildrenSorted cmp changesOf clisOf worktrees).Perm
          (worktrees.map (enrichRecord changesOf clisOf))
      ∧ (∀ r ∈ getChildrenSorted cmp changesOf clisOf worktrees,
          r.changes = changesOf r.path ∧ r.activeCLIs = clisOf r.path)
      ∧ (getChildrenSorted cmp changesOf clisOf worktrees).Pairwise
          (fun a b => b.isMain = true → a.isMain = true)
      ∧ (getChildrenSorted cmp changesOf clisOf worktrees).Pairwise
          (fun a b => a.isMain = false → b.isMain = false →
            cmp (basename a.path) (basename b.path) ≤ 0) := by
  intro cmp changesOf clisOf worktrees htot htr
  have hperm : (getChildrenSorted cmp changesOf clisOf worktrees).Perm
      (worktrees.map (enrichRecord changesOf clisOf)) :=
    List.mergeSort_perm _ _
  have hsorted := List.sorted_mergeSort
    (leWt_trans cmp htr) (leWt_total cmp htot)
    (worktrees.map (enrichRecord changesOf clisOf))
  refine ⟨hperm, ?_, ?_, ?_⟩
  · intro r hr
    have hr2 : r ∈ worktrees.map (enrichRecord changesOf clisOf) :=
      hperm.mem_iff.mp hr
    obtain ⟨w, _, rfl⟩ := List.mem_map.mp hr2
    exact ⟨rfl, rfl⟩
  · refine hsorted.imp ?_
    intro a b hle hb
    by_contra ha
    have ha2 : a.isMain = false := by
      cases hm : a.isMain
      · rfl
      · exact absurd hm ha
    simp [leWt, cmpWt, ha2, hb] at hle
  · refine hsorted.imp ?_
    intro a b hle ha hb
    simp only [leWt, cmpWt, ha, hb, if_false, decide_eq_true_eq] at hle
    exact hle

/-- Witness for C8: a two-record listing with a constant collator. -/
theorem getChildren_sorted_spec_witness :
    (getChildrenSorted (fun _ _ => (0 : Int)) (fun _ => 3) (fun p => [p])
        [WorktreeInfo.mk "/repo/main" none none true false none,
         WorktreeInfo.mk "/repo/feat" none none false false none]).Perm
      ([WorktreeInfo.mk "/repo/main" none none true false none,
        WorktreeInfo.mk "/repo/feat" none none false false none].map
        (enrichRecord (fun _ => 3) (fun p => [p]))) := by
  exact (getChildren_sorted_spec (fun _ _ => 0) (fun _ => 3) (fun p => [p])
    [WorktreeInfo.mk "/repo/main" none none true false none,
     WorktreeInfo.mk "/repo/feat" none none false false none]
    (fun a b => Or.inl (by simp)) (fun a b c h1 h2 => by simp)).1
